import Mathlib

/-!
Shallow embedding of the egui_term terminal-view widget core (`src/lib.rs`):
the scroll accumulator (`handle_mouse_wheel`), the key/text event resolver
(`handle_keyboard_event`), the focused input dispatcher
(`TerminalView::process_input`) and the per-cell color resolution of the grid
renderer (`TerminalView::show`).

Modeling conventions:
* `f32` quantities (wheel deltas, font sizes, scroll remainders) are modeled
  as exact rationals; `i32` scroll counts as integers.  Rust `f32::trunc`,
  `f32::ceil`, `f32::signum` and the float remainder `%` are given their exact
  real-number semantics (`qtrunc`, `ratCeil`, `rustSignum`, `qfmod`).
* External collaborators are abstracted at the narrow interface the widget
  consumes: the binding table (module `bindings`, not part of the sources) is
  an arbitrary lookup function, the theme an arbitrary color map, the
  backend-reported selection range an arbitrary membership test on grid
  points, egui key codes and alacritty terminal-mode flag words are opaque
  naturals.
-/

namespace EguiTerm

/-- egui keyboard modifier snapshot (`egui::Modifiers`), external structure. -/
structure Modifiers where
  alt : Bool
  ctrl : Bool
  shift : Bool
  mac_cmd : Bool
  command : Bool
  deriving DecidableEq

/-- egui 2-d vector (`egui::Vec2`), `f32` fields modeled as rationals. -/
structure Vec2 where
  x : ℚ
  y : ℚ
  deriving DecidableEq

/-- egui key code (`egui::Key`), opaque. -/
abbrev Key := ℕ

/-- alacritty terminal mode flag word (`TermMode`), opaque. -/
abbrev TermMode := ℕ

/-- Input kind `bindings::InputKind`; `src/lib.rs` only builds the `KeyCode` kind. -/
inductive InputKind
  | KeyCode (key : Key)

/-- Result of a binding-table lookup (`bindings::BindingAction`): a literal
character, an escape sequence, or no binding (the catch-all arm of
`handle_keyboard_event` treats every other variant as no action). -/
inductive BindingAction
  | Char (c : Char)
  | Esc (seq : String)
  | NoBinding

/-- The binding table (`bindings::BindingsLayout`, module not in the sources):
abstracted as its lookup interface `get_action(input_kind, modifiers, mode)`. -/
def BindingsLayout : Type := InputKind → Modifiers → TermMode → BindingAction

/-- Lookup method `BindingsLayout::get_action`. -/
def BindingsLayout.get_action (l : BindingsLayout) (kind : InputKind)
    (modifiers : Modifiers) (term_mode : TermMode) : BindingAction :=
  l kind modifiers term_mode

/-- Pixel size of the widget or of one font cell (`types::Size`). -/
structure Size where
  width : ℚ
  height : ℚ
  deriving DecidableEq

/-- Commands this pipeline can issue (`backend::BackendCommand`). -/
inductive BackendCommand
  | Write (bytes : List UInt8)
  | Resize (size : Size) (font : Size)
  | Scroll (lines : ℤ)
  deriving DecidableEq

/-- Resolved effect of one input event (`InputAction` in `src/lib.rs`). -/
inductive InputAction
  | BackendCall (cmd : BackendCommand)
  | Ignore
  deriving DecidableEq

/-- Wheel granularity (`egui::MouseWheelUnit`). -/
inductive MouseWheelUnit
  | Line
  | Point
  | Page
  deriving DecidableEq

/-- The subset of `egui::Event` that `process_input` inspects; every variant
not listed falls into `OtherEvent` (resolved by the catch-all `_` arm). -/
inductive Event
  | Text (text : String)
  | Key (key : Key) (pressed : Bool) (modifiers : Modifiers)
  | MouseWheel (unit : MouseWheelUnit) (delta : Vec2)
  | PointerButton (pos : Vec2) (button : ℕ) (pressed : Bool) (modifiers : Modifiers)
  | MouseMoved (pos : Vec2)
  | OtherEvent

/-- Per-instance view state (`TerminalViewState` in `src/lib.rs`). -/
structure TerminalViewState where
  is_dragged : Bool
  is_focused : Bool
  scroll_pixels : ℚ
  keyboard_modifiers : Modifiers

/-- UTF-8 bytes of a string: Rust `str::as_bytes` on the text payload. -/
def strBytes (s : String) : List UInt8 :=
  (s.data.map String.utf8EncodeChar).flatten

/-- Rust `f32::trunc` followed by the integral view: truncation toward zero of
an exact rational, computed as truncating integer division of the numerator by
the (positive) denominator. -/
def qtrunc (q : ℚ) : ℤ :=
  q.num.tdiv q.den

/-- Rust `f32::trunc`, staying in the scalar domain. -/
def ratTrunc (q : ℚ) : ℚ :=
  (qtrunc q : ℚ)

/-- Rust `as i32` cast of an `f32` that the program only applies to integral
values (results of `trunc`/`ceil`), so saturation never matters. -/
def f32ToI32 (q : ℚ) : ℤ :=
  qtrunc q

/-- Rust `f32 % f32`: remainder with the sign of the dividend,
`x - (x/y).trunc() * y`. -/
def qfmod (x y : ℚ) : ℚ :=
  x - ratTrunc (x / y) * y

/-- Rust `f32::signum`: `1.0` for non-negative values (zero included, since
`+0.0` has a positive sign bit), `-1.0` for negative values. -/
def rustSignum (q : ℚ) : ℚ :=
  if q < 0 then -1 else 1

/-- Rust `f32::ceil`, staying in the scalar domain. -/
def ratCeil (q : ℚ) : ℚ :=
  ((⌈q⌉ : ℤ) : ℚ)

/-- Scroll accumulator `handle_mouse_wheel` from `src/lib.rs` (lines 252-275).
The Rust function
mutates `state.scroll_pixels` in place; here the updated state is returned
alongside the resolved action. -/
def handle_mouse_wheel (state : TerminalViewState) (font_size : ℚ)
    (unit : MouseWheelUnit) (delta : Vec2) : TerminalViewState × InputAction :=
  match unit with
  | MouseWheelUnit.Line =>
    let lines : ℚ := rustSignum delta.y * ratCeil |delta.y|
    (state, InputAction.BackendCall (BackendCommand.Scroll (f32ToI32 lines)))
  | MouseWheelUnit.Point =>
    let scroll_pixels := state.scroll_pixels - delta.y
    let lines : ℚ := ratTrunc (scroll_pixels / font_size)
    let state' := { state with scroll_pixels := qfmod scroll_pixels font_size }
    if lines ≠ 0 then
      (state', InputAction.BackendCall (BackendCommand.Scroll (f32ToI32 lines)))
    else
      (state', InputAction.Ignore)
  | MouseWheelUnit.Page => (state, InputAction.Ignore)

/-- Key/text resolver `handle_keyboard_event` from `src/lib.rs` (lines 204-250). -/
def handle_keyboard_event (event : Event) (bindings_layout : BindingsLayout)
    (term_mode : TermMode) : InputAction :=
  match event with
  | Event.Text c => InputAction.BackendCall (BackendCommand.Write (strBytes c))
  | Event.Key key pressed modifiers =>
    if !pressed then
      InputAction.Ignore
    else
      match bindings_layout.get_action (InputKind.KeyCode key) modifiers term_mode with
      | BindingAction.Char c =>
        InputAction.BackendCall (BackendCommand.Write (String.utf8EncodeChar c))
      | BindingAction.Esc seq =>
        InputAction.BackendCall (BackendCommand.Write (strBytes seq))
      | BindingAction.NoBinding => InputAction.Ignore
  | _ => InputAction.Ignore

/-- The per-event dispatch of `TerminalView::process_input` (lines 126-140):
text and key events go to the keyboard resolver, wheel events to the scroll
accumulator, pointer-button and pointer-motion events (and anything else) are
ignored. -/
def processEvent (bindings : BindingsLayout) (term_mode : TermMode)
    (font_size : ℚ) (state : TerminalViewState) (event : Event) :
    TerminalViewState × InputAction :=
  match event with
  | Event.Text _ | Event.Key _ _ _ =>
    (state, handle_keyboard_event event bindings term_mode)
  | Event.MouseWheel unit delta => handle_mouse_wheel state font_size unit delta
  | Event.PointerButton _ _ _ _ => (state, InputAction.Ignore)
  | Event.MouseMoved _ => (state, InputAction.Ignore)
  | Event.OtherEvent => (state, InputAction.Ignore)

/-- The event-queue drain of `TerminalView::process_input` (lines 124-149):
events are resolved in arrival order and every `BackendCall` is forwarded to
the backend; the collected command list records those calls in order. -/
def processEvents (bindings : BindingsLayout) (term_mode : TermMode)
    (font_size : ℚ) : TerminalViewState → List Event →
    TerminalViewState × List BackendCommand
  | state, [] => (state, [])
  | state, event :: rest =>
    let resolved := processEvent bindings term_mode font_size state event
    let remaining := processEvents bindings term_mode font_size resolved.1 rest
    match resolved.2 with
    | InputAction.BackendCall cmd => (remaining.1, cmd :: remaining.2)
    | InputAction.Ignore => remaining

/-- Focus gate of `TerminalView::process_input` (lines 119-152): when the widget does
not have focus the frame's event queue is not consumed at all. -/
def process_input (has_focus : Bool) (bindings : BindingsLayout)
    (term_mode : TermMode) (font_size : ℚ) (state : TerminalViewState)
    (events : List Event) : TerminalViewState × List BackendCommand :=
  if !has_focus then (state, [])
  else processEvents bindings term_mode font_size state events

/-- Grid coordinates of a cell (alacritty `Point`: `i32` line, `usize` column). -/
structure GridPoint where
  line : ℤ
  column : ℕ
  deriving DecidableEq

/-- The cell flags the renderer inspects (alacritty `cell::Flags` bitflags,
modeled as the list of set flags). -/
inductive CellFlag
  | INVERSE
  | BOLD
  | ITALIC
  | UNDERLINE
  | DIM
  | HIDDEN
  | STRIKEOUT
  deriving DecidableEq, BEq

/-- Selection test `content.selectable_range.map_or(false, |r| r.contains(point))` from
`TerminalView::show` (lines 170-172); the backend's `SelectionRange::contains`
is abstracted as a membership test. -/
def selectionContains (selectable_range : Option (GridPoint → Bool))
    (p : GridPoint) : Bool :=
  match selectable_range with
  | none => false
  | some r => r p

/-- Per-cell foreground/background resolution of `TerminalView::show`
(lines 166-175): theme lookup for both color ids, then one swap when the cell
carries the INVERSE flag or lies in the selectable range.  Colors are opaque
naturals, the theme an arbitrary map from color ids. -/
def cellColors (theme : ℕ → ℕ) (fg_id bg_id : ℕ) (flags : List CellFlag)
    (selectable_range : Option (GridPoint → Bool)) (p : GridPoint) : ℕ × ℕ :=
  let fg := theme fg_id
  let bg := theme bg_id
  if flags.contains CellFlag.INVERSE || selectionContains selectable_range p then
    (bg, fg)
  else
    (fg, bg)

/-- Modelled from the spec: the color rule as claim C2 words it — swap exactly
when inverse-flag XOR selection-membership holds (to be compared with the
source rule `cellColors`). -/
def xorSwapColors (theme : ℕ → ℕ) (fg_id bg_id : ℕ) (inverse selected : Bool) :
    ℕ × ℕ :=
  if xor inverse selected then (theme bg_id, theme fg_id)
  else (theme fg_id, theme bg_id)

/-- Modelled from the spec: the line-granular scroll amount as the spec words
it, sign(delta.y) × ceil(|delta.y|), as a signed line count (to be compared
with what the source `handle_mouse_wheel` emits). -/
def specLineCount (y : ℚ) : ℤ :=
  (if y < 0 then -1 else 1) * ⌈|y|⌉

/-- Modelled from the spec (C4): the accumulated remainder r' = r + (-delta.y). -/
def specPointAccum (r dy : ℚ) : ℚ :=
  r + -dy

/-- Modelled from the spec (C4): the discrete line count
n = truncate(r' / cell_height). -/
def specPointLines (r dy cell_height : ℚ) : ℤ :=
  qtrunc (specPointAccum r dy / cell_height)

/-- Modelled from the spec (C4): the stored remainder r' mod cell_height — the
sub-line fractional part r' − n·cell_height left after the n whole consumed
lines are discarded. -/
def specPointStored (r dy cell_height : ℚ) : ℚ :=
  specPointAccum r dy - (specPointLines r dy cell_height : ℚ) * cell_height

/-- Whether an event is a pixel-granular (`Point` unit) mouse-wheel event. -/
def isPixelWheel : Event → Bool
  | Event.MouseWheel MouseWheelUnit.Point _ => true
  | _ => false

/-- All-false modifier snapshot (`Modifiers::default()`). -/
def modifiers0 : Modifiers :=
  ⟨false, false, false, false, false⟩

/-- Default view state (`TerminalViewState::default()`): flags cleared, zero scroll remainder. -/
def state0 : TerminalViewState :=
  ⟨false, false, 0, modifiers0⟩

/-- A concrete trivial binding table (every lookup misses). -/
def bindings0 : BindingsLayout :=
  fun _ _ _ => BindingAction.NoBinding

/-- A concrete wheel-event list with pixel (`Point`) granularity and the given
vertical deltas. -/
def pixelWheelEvents (ds : List ℚ) : List Event :=
  ds.map fun d => Event.MouseWheel MouseWheelUnit.Point ⟨0, d⟩

theorem qtrunc_neg (q : ℚ) : qtrunc (-q) = -qtrunc q := by
  unfold qtrunc
  rw [Rat.neg_num, Rat.neg_den, Int.neg_tdiv]

theorem qtrunc_eq_floor {q : ℚ} (hq : 0 ≤ q) : qtrunc q = ⌊q⌋ := by
  unfold qtrunc
  rw [Int.tdiv_eq_ediv (Rat.num_nonneg.mpr hq) (Int.natCast_nonneg q.den)]
  exact Rat.floor_def.symm

theorem qtrunc_eq_ceil {q : ℚ} (hq : q ≤ 0) : qtrunc q = ⌈q⌉ := by
  have h1 : qtrunc q = -qtrunc (-q) := by rw [qtrunc_neg, neg_neg]
  rw [h1, qtrunc_eq_floor (neg_nonneg.mpr hq), Int.floor_neg, neg_neg]

theorem qtrunc_intCast (n : ℤ) : qtrunc ((n : ℚ)) = n := by
  unfold qtrunc
  rw [Rat.num_intCast, Rat.den_intCast, Nat.cast_one, Int.tdiv_one]

theorem qtrunc_eq_zero {q : ℚ} (h1 : -1 < q) (h2 : q ≤ 0) : qtrunc q = 0 := by
  rw [qtrunc_eq_ceil h2]
  exact Int.ceil_eq_zero_iff.mpr ⟨h1, h2⟩

theorem qtrunc_nonpos {q : ℚ} (hq : q ≤ 0) : qtrunc q ≤ 0 := by
  rw [qtrunc_eq_ceil hq]
  exact Int.ceil_le.mpr (by exact_mod_cast hq)

theorem le_qtrunc_cast {q : ℚ} (hq : q ≤ 0) : q ≤ (qtrunc q : ℚ) := by
  rw [qtrunc_eq_ceil hq]
  exact Int.le_ceil q

theorem qtrunc_natCast (n : ℕ) : qtrunc ((n : ℚ)) = n := by
  exact_mod_cast qtrunc_intCast n

@[simp]
theorem qtrunc_ofNat (n : ℕ) : qtrunc (OfNat.ofNat n : ℚ) = OfNat.ofNat n := by
  unfold qtrunc
  rw [Rat.num_ofNat, Rat.den_ofNat, Nat.cast_one, Int.tdiv_one]

@[simp]
theorem qtrunc_zero : qtrunc 0 = 0 := by
  simpa using qtrunc_intCast 0

@[simp]
theorem qtrunc_one : qtrunc 1 = 1 := by
  simpa using qtrunc_intCast 1

/-- Canonical form of the pixel-granular (`Point`) arm of
`handle_mouse_wheel`: remainder becomes `(r − delta.y) % font_size`, and a
scroll of `trunc((r − delta.y) / font_size)` lines is emitted exactly when
that count is non-zero. -/
theorem point_step_eq (s : TerminalViewState) (font_size : ℚ) (d : Vec2) :
    handle_mouse_wheel s font_size MouseWheelUnit.Point d =
      ({ s with scroll_pixels := qfmod (s.scroll_pixels - d.y) font_size },
        if qtrunc ((s.scroll_pixels - d.y) / font_size) = 0 then
          InputAction.Ignore
        else
          InputAction.BackendCall
            (BackendCommand.Scroll (qtrunc ((s.scroll_pixels - d.y) / font_size)))) := by
  by_cases hq : qtrunc ((s.scroll_pixels - d.y) / font_size) = 0 <;>
    simp [handle_mouse_wheel, ratTrunc, f32ToI32, hq, qtrunc_intCast]

/-- Canonical form of the line-granular arm of `handle_mouse_wheel`: the state
is untouched and `Scroll(sign(delta.y) × ceil(|delta.y|))` is always emitted. -/
theorem line_step_eq (s : TerminalViewState) (font_size : ℚ) (d : Vec2) :
    handle_mouse_wheel s font_size MouseWheelUnit.Line d =
      (s, InputAction.BackendCall (BackendCommand.Scroll (specLineCount d.y))) := by
  have hcast : rustSignum d.y * ratCeil |d.y| = ((specLineCount d.y : ℤ) : ℚ) := by
    unfold rustSignum ratCeil specLineCount
    split <;> push_cast <;> ring
  simp only [handle_mouse_wheel, f32ToI32, hcast, qtrunc_intCast]

theorem specLineCount_eq_zero_iff (y : ℚ) : specLineCount y = 0 ↔ y = 0 := by
  unfold specLineCount
  constructor
  · intro h
    rcases mul_eq_zero.mp h with h1 | h1
    · split at h1 <;> omega
    · have h2 := (Int.ceil_eq_zero_iff.mp h1).2
      exact abs_eq_zero.mp (le_antisymm h2 (abs_nonneg y))
  · intro h
    rw [h]
    simp

theorem specLineCount_pos {y : ℚ} (hy : 0 < y) : 0 < specLineCount y := by
  unfold specLineCount
  rw [if_neg (not_lt.mpr hy.le), one_mul, abs_of_pos hy]
  exact Int.ceil_pos.mpr hy

theorem qtrunc_neg_one : qtrunc (-1 : ℚ) = -1 := by
  rw [show (-1 : ℚ) = ((-1 : ℤ) : ℚ) by norm_num, qtrunc_intCast]

theorem qfmod_small {x h : ℚ} (hh : 0 < h) (h1 : -h < x) (h2 : x ≤ 0) :
    qtrunc (x / h) = 0 ∧ qfmod x h = x := by
  have hq1 : (-1 : ℚ) < x / h := by
    rw [lt_div_iff₀ hh]
    linarith
  have hq2 : x / h ≤ 0 := div_nonpos_iff.mpr (Or.inr ⟨h2, hh.le⟩)
  have ht := qtrunc_eq_zero hq1 hq2
  refine ⟨ht, ?_⟩
  unfold qfmod ratTrunc
  rw [ht]
  push_cast
  ring

/-- A pixel-granular step whose accumulated remainder stays strictly inside
one cell height emits nothing and just stores the accumulated remainder. -/
theorem point_step_small (s : TerminalViewState) {font_size : ℚ} (d : ℚ)
    (hh : 0 < font_size) (h1 : -font_size < s.scroll_pixels - d)
    (h2 : s.scroll_pixels - d ≤ 0) :
    handle_mouse_wheel s font_size MouseWheelUnit.Point ⟨0, d⟩ =
      ({ s with scroll_pixels := s.scroll_pixels - d }, InputAction.Ignore) := by
  obtain ⟨hz, hm⟩ := qfmod_small hh h1 h2
  rw [point_step_eq]
  simp [hz, hm]

/-- A pixel-granular step whose accumulated remainder lands exactly on minus
one cell height emits Scroll(-1) and resets the remainder to zero. -/
theorem point_step_hit (s : TerminalViewState) {font_size : ℚ} (d : ℚ)
    (hh : 0 < font_size) (hhit : s.scroll_pixels - d = -font_size) :
    handle_mouse_wheel s font_size MouseWheelUnit.Point ⟨0, d⟩ =
      ({ s with scroll_pixels := 0 },
        InputAction.BackendCall (BackendCommand.Scroll (-1))) := by
  have hq : (s.scroll_pixels - d) / font_size = -1 := by
    rw [hhit, neg_div, div_self (ne_of_gt hh)]
  have hm : qfmod (s.scroll_pixels - d) font_size = 0 := by
    unfold qfmod ratTrunc
    rw [hq, qtrunc_neg_one, hhit]
    push_cast
    ring
  rw [point_step_eq]
  simp [hq, hm, qtrunc_neg_one]

theorem processEvents_nil (b : BindingsLayout) (m : TermMode) (fs : ℚ)
    (s : TerminalViewState) : processEvents b m fs s [] = (s, []) :=
  rfl

theorem processEvents_cons (b : BindingsLayout) (m : TermMode) (fs : ℚ)
    (s : TerminalViewState) (e : Event) (es : List Event) :
    processEvents b m fs s (e :: es) =
      (match (processEvent b m fs s e).2 with
        | InputAction.BackendCall cmd =>
          ((processEvents b m fs (processEvent b m fs s e).1 es).1,
            cmd :: (processEvents b m fs (processEvent b m fs s e).1 es).2)
        | InputAction.Ignore =>
          processEvents b m fs (processEvent b m fs s e).1 es) :=
  rfl

/-- While nonnegative pixel deltas accumulate to strictly less than one cell
height, the run emits nothing and the remainder is the negated running sum. -/
theorem pixelRun_no_emit (b : BindingsLayout) (m : TermMode) {h : ℚ}
    (ds : List ℚ) : ∀ s : TerminalViewState, 0 < h → -h < s.scroll_pixels →
    s.scroll_pixels ≤ 0 → (∀ d ∈ ds, 0 ≤ d) → ds.sum < h + s.scroll_pixels →
    processEvents b m h s (pixelWheelEvents ds) =
      ({ s with scroll_pixels := s.scroll_pixels - ds.sum }, []) := by
  induction ds with
  | nil =>
    intro s _ _ _ _ _
    simp [pixelWheelEvents, processEvents_nil]
  | cons d rest ih =>
    intro s hh h1 h2 hnn hsum
    have hd : 0 ≤ d := hnn d (List.mem_cons_self d rest)
    have hrest : ∀ x ∈ rest, 0 ≤ x := fun x hx => hnn x (List.mem_cons_of_mem d hx)
    have hrs : 0 ≤ rest.sum := List.sum_nonneg hrest
    have hsum' : d + rest.sum < h + s.scroll_pixels := by
      simpa [List.sum_cons] using hsum
    have hstep := point_step_small s d hh (by linarith) (by linarith)
    have hrun := ih { s with scroll_pixels := s.scroll_pixels - d }
      hh (by simpa using by linarith : -h < s.scroll_pixels - d)
      (by simpa using by linarith : s.scroll_pixels - d ≤ 0)
      hrest (by simpa using by linarith : rest.sum < h + (s.scroll_pixels - d))
    simp only [pixelWheelEvents, List.map_cons, processEvents_cons,
      processEvent, hstep]
    simp only [pixelWheelEvents] at hrun
    rw [hrun]
    simp [List.sum_cons, sub_sub]

/-- When nonnegative pixel deltas accumulate to exactly one cell height, the
run emits exactly one Scroll(-1) and resets the remainder to zero. -/
theorem pixelRun_one_emit (b : BindingsLayout) (m : TermMode) {h : ℚ}
    (ds : List ℚ) : ∀ s : TerminalViewState, 0 < h → -h < s.scroll_pixels →
    s.scroll_pixels ≤ 0 → (∀ d ∈ ds, 0 ≤ d) → ds.sum = h + s.scroll_pixels →
    processEvents b m h s (pixelWheelEvents ds) =
      ({ s with scroll_pixels := 0 }, [BackendCommand.Scroll (-1)]) := by
  induction ds with
  | nil =>
    intro s hh h1 _ _ hsum
    exfalso
    simp only [List.sum_nil] at hsum
    linarith
  | cons d rest ih =>
    intro s hh h1 h2 hnn hsum
    have hd : 0 ≤ d := hnn d (List.mem_cons_self d rest)
    have hrest : ∀ x ∈ rest, 0 ≤ x := fun x hx => hnn x (List.mem_cons_of_mem d hx)
    have hrs : 0 ≤ rest.sum := List.sum_nonneg hrest
    have hsum' : d + rest.sum = h + s.scroll_pixels := by
      simpa [List.sum_cons] using hsum
    have hge : -h ≤ s.scroll_pixels - d := by linarith
    rcases eq_or_lt_of_le hge with heq | hlt
    · have hstep := point_step_hit s d hh heq.symm
      have hrest0 : rest.sum = 0 := by linarith
      have hrun := pixelRun_no_emit b m rest { s with scroll_pixels := (0 : ℚ) }
        hh (by simpa using by linarith : -h < (0 : ℚ))
        (by simp : (0 : ℚ) ≤ 0) hrest
        (by simpa using by linarith : rest.sum < h + (0 : ℚ))
      simp only [pixelWheelEvents, List.map_cons, processEvents_cons,
        processEvent, hstep]
      simp only [pixelWheelEvents] at hrun
      rw [hrun]
      simp [hrest0]
    · have hstep := point_step_small s d hh hlt (by linarith)
      have hrun := ih { s with scroll_pixels := s.scroll_pixels - d }
        hh (by simpa using hlt : -h < s.scroll_pixels - d)
        (by simpa using by linarith : s.scroll_pixels - d ≤ 0)
        hrest (by simpa using by linarith : rest.sum = h + (s.scroll_pixels - d))
      simp only [pixelWheelEvents, List.map_cons, processEvents_cons,
        processEvent, hstep]
      simp only [pixelWheelEvents] at hrun
      rw [hrun]

/-- Starting from a non-positive remainder, a run of strictly positive pixel
deltas keeps the remainder non-positive and every command it emits is a
Scroll with strictly negative line count. -/
theorem pixelRun_nonpos_neg (b : BindingsLayout) (m : TermMode) {h : ℚ}
    (ds : List ℚ) : ∀ s : TerminalViewState, 0 < h → s.scroll_pixels ≤ 0 →
    (∀ d ∈ ds, 0 < d) →
    (processEvents b m h s (pixelWheelEvents ds)).1.scroll_pixels ≤ 0 ∧
    ∀ c ∈ (processEvents b m h s (pixelWheelEvents ds)).2,
      ∃ n : ℤ, c = BackendCommand.Scroll n ∧ n < 0 := by
  induction ds with
  | nil =>
    intro s _ hs _
    simp only [pixelWheelEvents, List.map_nil, processEvents_nil]
    exact ⟨hs, by simp⟩
  | cons d rest ih =>
    intro s hh hs hds
    have hd : 0 < d := hds d (List.mem_cons_self d rest)
    have hrest : ∀ x ∈ rest, 0 < x := fun x hx => hds x (List.mem_cons_of_mem d hx)
    have hr'neg : s.scroll_pixels - d < 0 := by linarith
    have hqle : (s.scroll_pixels - d) / h ≤ 0 :=
      div_nonpos_iff.mpr (Or.inr ⟨hr'neg.le, hh.le⟩)
    have hn : qtrunc ((s.scroll_pixels - d) / h) ≤ 0 := qtrunc_nonpos hqle
    have hstate : qfmod (s.scroll_pixels - d) h ≤ 0 := by
      unfold qfmod ratTrunc
      have hcl := le_qtrunc_cast hqle
      have hmul := mul_le_mul_of_nonneg_right hcl hh.le
      rw [div_mul_cancel₀ (s.scroll_pixels - d) (ne_of_gt hh)] at hmul
      linarith
    have hnext := ih { s with scroll_pixels := qfmod (s.scroll_pixels - d) h }
      hh hstate hrest
    by_cases hz : qtrunc ((s.scroll_pixels - d) / h) = 0
    · simp only [pixelWheelEvents, List.map_cons, processEvents_cons,
        processEvent, point_step_eq, hz, if_pos]
      simpa [pixelWheelEvents] using hnext
    · simp only [pixelWheelEvents, List.map_cons, processEvents_cons,
        processEvent, point_step_eq, hz, if_neg]
      simp only [pixelWheelEvents] at hnext
      refine ⟨hnext.1, ?_⟩
      intro c hc
      rcases List.mem_cons.mp hc with hc1 | hc2
      · exact ⟨qtrunc ((s.scroll_pixels - d) / h), hc1,
          lt_of_le_of_ne hn hz⟩
      · exact hnext.2 c hc2

/-- C1: in the grid renderer, every rendered cell has its foreground and
background swapped when the cell carries the inverse-video flag OR its grid
position lies in the backend-reported selection range; when both conditions
hold the result is the single-swap pair, so the swap happens exactly once and
does not cancel out. -/
theorem inverse_or_selection_swaps_once (theme : ℕ → ℕ) (fg_id bg_id : ℕ)
    (flags : List CellFlag) (sel : Option (GridPoint → Bool)) (p : GridPoint)
    (hcond : flags.contains CellFlag.INVERSE = true ∨
      selectionContains sel p = true) :
    cellColors theme fg_id bg_id flags sel p = (theme bg_id, theme fg_id) := by
  unfold cellColors
  rcases hcond with h | h <;> simp [h]

/-- Witness for C1 at a cell that both carries INVERSE and lies in the
selection: the colors come out swapped exactly once. -/
theorem inverse_or_selection_swaps_once_witness :
    [CellFlag.INVERSE].contains CellFlag.INVERSE = true ∧
    selectionContains (some fun _ => true) ⟨0, 0⟩ = true ∧
    cellColors id 0 1 [CellFlag.INVERSE] (some fun _ => true) ⟨0, 0⟩ = (1, 0) :=
  ⟨by decide, rfl,
    inverse_or_selection_swaps_once id 0 1 [CellFlag.INVERSE]
      (some fun _ => true) ⟨0, 0⟩ (Or.inl (by decide))⟩

/-- C2 counterexample: on a cell where the inverse flag and selection
membership are both true, the renderer produces the swapped pair (the rule is
an inclusive OR), while the claimed XOR rule produces the unswapped pair; with
two distinct colors the outputs differ, so the XOR claim is false. -/
theorem xor_swap_counterexample :
    cellColors id 0 1 [CellFlag.INVERSE] (some fun _ => true) ⟨0, 0⟩ = (1, 0) ∧
    xorSwapColors id 0 1 true true = (0, 1) ∧
    ((1, 0) : ℕ × ℕ) ≠ ((0, 1) : ℕ × ℕ) :=
  ⟨rfl, rfl, by decide⟩

/-- C2 (amended): the color swap is applied exactly when the inclusive
disjunction inverse-flag OR selection-membership holds — one swap when at
least one of the two is true (so both-true gives one swap, not none), and no
swap when both are false; observable whenever the two theme colors differ. -/
theorem swap_iff_inverse_or_selection (theme : ℕ → ℕ) (fg_id bg_id : ℕ)
    (flags : List CellFlag) (sel : Option (GridPoint → Bool)) (p : GridPoint)
    (hne : theme fg_id ≠ theme bg_id) :
    cellColors theme fg_id bg_id flags sel p = (theme bg_id, theme fg_id) ↔
      (flags.contains CellFlag.INVERSE || selectionContains sel p) = true := by
  unfold cellColors
  cases hc : (flags.contains CellFlag.INVERSE || selectionContains sel p) with
  | true => simp [hc]
  | false =>
    simp only [Bool.false_eq_true, if_false, iff_false]
    intro heq
    exact hne (congrArg Prod.fst heq)

/-- Witness for C2 (amended) at a cell with both conditions true and two
distinct theme colors. -/
theorem swap_iff_inverse_or_selection_witness :
    (0 : ℕ) ≠ 1 ∧
    (cellColors id 0 1 [CellFlag.INVERSE] (some fun _ => true) ⟨0, 0⟩ = (1, 0) ↔
      ([CellFlag.INVERSE].contains CellFlag.INVERSE ||
        selectionContains (some fun _ => true) ⟨0, 0⟩) = true) :=
  ⟨by decide,
    swap_iff_inverse_or_selection id 0 1 [CellFlag.INVERSE]
      (some fun _ => true) ⟨0, 0⟩ (by decide)⟩

/-- C6: a key event whose pressed flag is false resolves to Ignore
unconditionally — for every key, modifier set, binding table and terminal
mode — so a key release never produces a BackendCall. -/
theorem key_release_resolves_to_ignore (key : Key) (modifiers : Modifiers)
    (bindings : BindingsLayout) (term_mode : TermMode) :
    handle_keyboard_event (Event.Key key false modifiers) bindings term_mode =
      InputAction.Ignore :=
  rfl

/-- C7: a text-insertion event resolves to a Write of exactly the text's UTF-8
bytes, and the result is identical across any two binding tables and any two
terminal modes. -/
theorem text_event_writes_utf8 (t : String) (b b' : BindingsLayout)
    (m m' : TermMode) :
    handle_keyboard_event (Event.Text t) b m =
      InputAction.BackendCall (BackendCommand.Write (strBytes t)) ∧
    handle_keyboard_event (Event.Text t) b m =
      handle_keyboard_event (Event.Text t) b' m' :=
  ⟨rfl, rfl⟩

/-- C8: when the widget does not have input focus, `process_input` consumes no
events: it issues zero backend calls and leaves the state untouched, whatever
the content of the frame's event queue. -/
theorem unfocused_frame_issues_no_commands (b : BindingsLayout) (m : TermMode)
    (font_size : ℚ) (s : TerminalViewState) (events : List Event) :
    process_input false b m font_size s events = (s, []) :=
  rfl

/-- C3 counterexample: a line-granular wheel event with delta.y exactly 0 does
emit a command, namely the spurious Scroll(0) the claim says never happens. -/
theorem line_zero_delta_emits_scroll_zero :
    handle_mouse_wheel state0 10 MouseWheelUnit.Line ⟨0, 0⟩ =
      (state0, InputAction.BackendCall (BackendCommand.Scroll 0)) ∧
    InputAction.BackendCall (BackendCommand.Scroll 0) ≠ InputAction.Ignore := by
  refine ⟨?_, by decide⟩
  rw [line_step_eq]
  norm_num [specLineCount]

/-- C3 (amended): every line-granular wheel event emits exactly one Scroll
command whose line count is sign(delta.y) × ceil(|delta.y|); that count is
zero exactly when delta.y = 0, so a zero delta emits a spurious Scroll(0)
rather than no command. -/
theorem line_wheel_emits_sign_times_ceil (s : TerminalViewState)
    (font_size : ℚ) (d : Vec2) :
    handle_mouse_wheel s font_size MouseWheelUnit.Line d =
      (s, InputAction.BackendCall (BackendCommand.Scroll (specLineCount d.y))) ∧
    (specLineCount d.y = 0 ↔ d.y = 0) :=
  ⟨line_step_eq s font_size d, specLineCount_eq_zero_iff d.y⟩

/-- C4: a pixel-granular wheel event accumulates r' = r + (-delta.y), computes
n = truncate(r' / cell_height), stores the remainder r' mod cell_height
(keeping only the sub-line fractional part), and emits Scroll(n) exactly when
n is non-zero; a page-granular event never emits a command. -/
theorem pixel_wheel_accumulator_spec (s : TerminalViewState)
    (font_size : ℚ) (d : Vec2) :
    (handle_mouse_wheel s font_size MouseWheelUnit.Point d).1 =
      { s with scroll_pixels := specPointStored s.scroll_pixels d.y font_size } ∧
    (handle_mouse_wheel s font_size MouseWheelUnit.Point d).2 =
      (if specPointLines s.scroll_pixels d.y font_size = 0 then
        InputAction.Ignore
      else
        InputAction.BackendCall
          (BackendCommand.Scroll (specPointLines s.scroll_pixels d.y font_size))) ∧
    handle_mouse_wheel s font_size MouseWheelUnit.Page d = (s, InputAction.Ignore) := by
  have haccum : specPointAccum s.scroll_pixels d.y = s.scroll_pixels - d.y := by
    unfold specPointAccum
    ring
  have hlines : specPointLines s.scroll_pixels d.y font_size =
      qtrunc ((s.scroll_pixels - d.y) / font_size) := by
    unfold specPointLines
    rw [haccum]
  refine ⟨?_, ?_, rfl⟩
  · rw [point_step_eq]
    unfold specPointStored qfmod ratTrunc
    rw [haccum, hlines]
  · rw [point_step_eq, hlines]

/-- C5 counterexample: the pixel deltas 20 and −10 sum to exactly one cell
height (10), yet the accumulator emits two Scroll commands, of magnitudes
2 and 1 — not exactly one command of magnitude 1 — so the claim fails for
mixed-sign splits. -/
theorem pixel_sum_split_emits_two_scrolls :
    ((20 : ℚ) + (-10) = 10) ∧
    (process_input true bindings0 0 10 state0 (pixelWheelEvents [20, -10])).2 =
      [BackendCommand.Scroll (-2), BackendCommand.Scroll 1] := by
  refine ⟨by norm_num, ?_⟩
  have e1 : handle_mouse_wheel state0 10 MouseWheelUnit.Point ⟨0, 20⟩ =
      ({ state0 with scroll_pixels := 0 },
        InputAction.BackendCall (BackendCommand.Scroll (-2))) := by
    rw [point_step_eq]
    have h1 : state0.scroll_pixels - (Vec2.mk 0 20).y = -20 := by
      norm_num [state0]
    rw [h1]
    have h2 : (-20 : ℚ) / 10 = -2 := by norm_num
    rw [h2]
    have h3 : qtrunc (-2 : ℚ) = -2 := by decide
    have h4 : qfmod (-20 : ℚ) 10 = 0 := by
      unfold qfmod ratTrunc
      rw [h2, h3]
      norm_num
    rw [h3, h4]
    norm_num
  have e2 : handle_mouse_wheel { state0 with scroll_pixels := (0 : ℚ) } 10
      MouseWheelUnit.Point ⟨0, -10⟩ =
      ({ state0 with scroll_pixels := 0 },
        InputAction.BackendCall (BackendCommand.Scroll 1)) := by
    rw [point_step_eq]
    have h1 : ({ state0 with scroll_pixels := (0 : ℚ) }).scroll_pixels -
        (Vec2.mk 0 (-10)).y = 10 := by
      norm_num
    rw [h1]
    have h2 : (10 : ℚ) / 10 = 1 := by norm_num
    rw [h2, qtrunc_one]
    have h4 : qfmod (10 : ℚ) 10 = 0 := by
      unfold qfmod ratTrunc
      rw [h2, qtrunc_one]
      norm_num
    rw [h4]
    norm_num
  show (processEvents bindings0 0 10 state0 (pixelWheelEvents [20, -10])).2 = _
  simp only [pixelWheelEvents, List.map_cons, List.map_nil, processEvents_cons,
    processEvents_nil, processEvent, e1, e2]

/-- C5 (amended): for every finite sequence of pixel-granular wheel events
with nonnegative delta.y values summing to exactly one cell height (h > 0),
starting from a zero remainder, the accumulator emits exactly one Scroll
command, of magnitude 1 — Scroll(-1), since positive deltas scroll toward
earlier history — regardless of how the total is split across the events. -/
theorem pixel_sum_one_cell_emits_single_scroll (b : BindingsLayout)
    (m : TermMode) (h : ℚ) (s : TerminalViewState) (ds : List ℚ)
    (hh : 0 < h) (hs0 : s.scroll_pixels = 0) (hnn : ∀ d ∈ ds, 0 ≤ d)
    (hsum : ds.sum = h) :
    (process_input true b m h s (pixelWheelEvents ds)).2 =
      [BackendCommand.Scroll (-1)] := by
  have hrun := pixelRun_one_emit b m ds s hh
    (by rw [hs0]; linarith) (by rw [hs0]) hnn (by rw [hs0]; simpa using hsum)
  show (processEvents b m h s (pixelWheelEvents ds)).2 = _
  rw [hrun]

/-- Witness for C5 (amended): one 10-pixel delta against a 10-pixel cell
height emits exactly Scroll(-1). -/
theorem pixel_sum_one_cell_emits_single_scroll_witness :
    0 < (10 : ℚ) ∧ state0.scroll_pixels = 0 ∧
    (∀ d ∈ ([10] : List ℚ), 0 ≤ d) ∧ ([10] : List ℚ).sum = 10 ∧
    (process_input true bindings0 0 10 state0 (pixelWheelEvents [10])).2 =
      [BackendCommand.Scroll (-1)] :=
  ⟨by norm_num, rfl,
    by intro d hd; rw [List.mem_singleton] at hd; rw [hd]; norm_num,
    by simp,
    pixel_sum_one_cell_emits_single_scroll bindings0 0 10 state0 [10]
      (by norm_num) rfl
      (by intro d hd; rw [List.mem_singleton] at hd; rw [hd]; norm_num)
      (by simp)⟩

/-- C9: for a wheel delta with delta.y > 0, a line-granular event emits a
Scroll with strictly positive count, while pixel-granular events accumulate a
non-positive remainder and every Scroll they ever emit has strictly negative
count: the two units map the same physical direction to opposite signs. -/
theorem wheel_units_opposite_signs (b : BindingsLayout) (m : TermMode)
    (s : TerminalViewState) (h dy r : ℚ) (ds : List ℚ)
    (hh : 0 < h) (hdy : 0 < dy) (hr : r ≤ 0) (hds : ∀ d ∈ ds, 0 < d) :
    (∃ n : ℤ, 0 < n ∧ handle_mouse_wheel s h MouseWheelUnit.Line ⟨0, dy⟩ =
      (s, InputAction.BackendCall (BackendCommand.Scroll n))) ∧
    (processEvents b m h { s with scroll_pixels := r }
      (pixelWheelEvents ds)).1.scroll_pixels ≤ 0 ∧
    (∀ c ∈ (processEvents b m h { s with scroll_pixels := r }
      (pixelWheelEvents ds)).2,
      ∃ n : ℤ, c = BackendCommand.Scroll n ∧ n < 0) := by
  have hpoint := pixelRun_nonpos_neg b m ds { s with scroll_pixels := r }
    hh hr hds
  exact ⟨⟨specLineCount dy, specLineCount_pos hdy, line_step_eq s h ⟨0, dy⟩⟩,
    hpoint.1, hpoint.2⟩

/-- Witness for C9: cell height 10, one upward line tick of 3 lines, one
pixel run of a single 25-pixel delta. -/
theorem wheel_units_opposite_signs_witness :
    0 < (10 : ℚ) ∧ 0 < (3 : ℚ) ∧ ((0 : ℚ) ≤ 0) ∧
    (∀ d ∈ ([25] : List ℚ), 0 < d) ∧
    ((∃ n : ℤ, 0 < n ∧ handle_mouse_wheel state0 10 MouseWheelUnit.Line ⟨0, 3⟩ =
        (state0, InputAction.BackendCall (BackendCommand.Scroll n))) ∧
      (processEvents bindings0 0 10 { state0 with scroll_pixels := 0 }
        (pixelWheelEvents [25])).1.scroll_pixels ≤ 0 ∧
      (∀ c ∈ (processEvents bindings0 0 10 { state0 with scroll_pixels := 0 }
        (pixelWheelEvents [25])).2,
        ∃ n : ℤ, c = BackendCommand.Scroll n ∧ n < 0)) :=
  ⟨by norm_num, by norm_num, le_refl 0,
    by intro d hd; rw [List.mem_singleton] at hd; rw [hd]; norm_num,
    wheel_units_opposite_signs bindings0 0 state0 10 3 0 [25]
      (by norm_num) (by norm_num) (le_refl 0)
      (by intro d hd; rw [List.mem_singleton] at hd; rw [hd]; norm_num)⟩

/-- C10: processing one input event leaves every view-state field other than
the scroll remainder (is_dragged, is_focused, keyboard_modifiers) unchanged;
the remainder itself changes only on a pixel-granular wheel event — and such
an event can mutate the remainder even while resolving to Ignore, as the
concrete sub-line delta shows. -/
theorem single_event_state_footprint (b : BindingsLayout) (m : TermMode)
    (font_size : ℚ) (s : TerminalViewState) (e : Event)
    (hnp : isPixelWheel e = false) :
    (∀ e' : Event,
      (processEvent b m font_size s e').1.is_dragged = s.is_dragged ∧
      (processEvent b m font_size s e').1.is_focused = s.is_focused ∧
      (processEvent b m font_size s e').1.keyboard_modifiers = s.keyboard_modifiers) ∧
    (processEvent b m font_size s e).1.scroll_pixels = s.scroll_pixels ∧
    processEvent bindings0 0 10 state0
        (Event.MouseWheel MouseWheelUnit.Point ⟨0, 1⟩) =
      ({ state0 with scroll_pixels := -1 }, InputAction.Ignore) ∧
    ({ state0 with scroll_pixels := (-1 : ℚ) }).scroll_pixels ≠
      state0.scroll_pixels := by
  refine ⟨?_, ?_, ?_, by norm_num [state0]⟩
  · intro e'
    cases e' with
    | Text t => exact ⟨rfl, rfl, rfl⟩
    | Key k p mods => exact ⟨rfl, rfl, rfl⟩
    | MouseWheel unit delta =>
      cases unit with
      | Line => rw [processEvent, line_step_eq]; exact ⟨rfl, rfl, rfl⟩
      | Point => rw [processEvent, point_step_eq]; exact ⟨rfl, rfl, rfl⟩
      | Page => exact ⟨rfl, rfl, rfl⟩
    | PointerButton pos btn p mods => exact ⟨rfl, rfl, rfl⟩
    | MouseMoved pos => exact ⟨rfl, rfl, rfl⟩
    | OtherEvent => exact ⟨rfl, rfl, rfl⟩
  · cases e with
    | Text t => rfl
    | Key k p mods => rfl
    | MouseWheel unit delta =>
      cases unit with
      | Line => rw [processEvent, line_step_eq]
      | Point => simp [isPixelWheel] at hnp
      | Page => rfl
    | PointerButton pos btn p mods => rfl
    | MouseMoved pos => rfl
    | OtherEvent => rfl
  · have hd : (state0.scroll_pixels - (1 : ℚ)) / 10 = -1 / 10 := by
      norm_num [state0]
    have hq : qtrunc ((state0.scroll_pixels - (1 : ℚ)) / 10) = 0 := by
      rw [hd]
      exact qtrunc_eq_zero (by norm_num) (by norm_num)
    have hm : qfmod (state0.scroll_pixels - (1 : ℚ)) 10 = -1 := by
      unfold qfmod ratTrunc
      rw [hq]
      norm_num [state0]
    show handle_mouse_wheel state0 10 MouseWheelUnit.Point ⟨0, 1⟩ = _
    rw [point_step_eq]
    simp [hq, hm]

/-- Witness for C10 at a non-wheel event (the catch-all arm). -/
theorem single_event_state_footprint_witness :
    isPixelWheel Event.OtherEvent = false ∧
    ((∀ e' : Event,
      (processEvent bindings0 0 10 state0 e').1.is_dragged = state0.is_dragged ∧
      (processEvent bindings0 0 10 state0 e').1.is_focused = state0.is_focused ∧
      (processEvent bindings0 0 10 state0 e').1.keyboard_modifiers =
        state0.keyboard_modifiers) ∧
    (processEvent bindings0 0 10 state0 Event.OtherEvent).1.scroll_pixels =
      state0.scroll_pixels ∧
    processEvent bindings0 0 10 state0
        (Event.MouseWheel MouseWheelUnit.Point ⟨0, 1⟩) =
      ({ state0 with scroll_pixels := -1 }, InputAction.Ignore) ∧
    ({ state0 with scroll_pixels := (-1 : ℚ) }).scroll_pixels ≠
      state0.scroll_pixels) :=
  ⟨rfl, single_event_state_footprint bindings0 0 10 state0 Event.OtherEvent rfl⟩

end EguiTerm
